import Mathlib

/-!
Verification of the Image Model Arena component (`src/components/arena/ImageArena.tsx`).

Strings manipulated by the filename parser, the identifier normalizer and the
CSV instruction parser are modelled as `List Char`; JavaScript's `\s` class is
modelled by its ASCII members, which covers every character these inputs use.
The session component's state (catalog, phase, round cursor, pairs, vote log,
pending animation timeouts, exported result documents) is modelled as an
explicit record, and the random sources (`Math.random` based shuffling and
left/right coin flips) are passed in as oracle functions, so that every actual
run of the code corresponds to some choice of oracles.
-/

namespace ModelDuelArena

/-- ASCII members of JavaScript's `\s` character class. -/
def jsWS (c : Char) : Bool :=
  c == ' ' || c == '\t' || c == '\n' || c == '\r' || c == Char.ofNat 11 || c == Char.ofNat 12

/-- The character class `[-_.\s]` used by `normalizeId` and `parseIdSuffix`. -/
def isSepWS (c : Char) : Bool :=
  c == '-' || c == '_' || c == '.' || jsWS c

/-- Removes trailing whitespace, the right half of JavaScript `String.trim`. -/
def dropTrailWS (l : List Char) : List Char :=
  (l.reverse.dropWhile jsWS).reverse

/-- JavaScript `String.trim`: whitespace removed from both ends. -/
def jsTrim (l : List Char) : List Char :=
  dropTrailWS (l.dropWhile jsWS)

/-- The digit / leading-zero step of `normalizeId`, applied to the cleaned string. -/
def normCore (cleaned : List Char) : List Char :=
  if cleaned ≠ [] ∧ cleaned.all Char.isDigit = true then
    if cleaned.dropWhile (fun c => c == '0') = [] then ['0']
    else cleaned.dropWhile (fun c => c == '0')
  else cleaned

/-- `normalizeId` from `ImageArena.tsx`: trim, strip leading `[-_.\s]+`, and
collapse leading zeros of an all-digit remainder (all zeros become `"0"`). -/
def normalizeId (id : List Char) : List Char :=
  if id = [] then []
  else normCore ((jsTrim id).dropWhile isSepWS)

/-- The normalization procedure as the specification words it: trim whitespace,
strip a leading run of `-`, `_`, `.` and whitespace, then strip leading zeros
of an all-digit remainder (an all-zero string yields `"0"`), otherwise return
the cleaned string unchanged. -/
def c7SpecNormalize (s : List Char) : List Char :=
  let cleaned := (jsTrim s).dropWhile isSepWS
  if cleaned ≠ [] ∧ cleaned.all Char.isDigit = true then
    if cleaned.dropWhile (fun c => c == '0') = [] then ['0']
    else cleaned.dropWhile (fun c => c == '0')
  else cleaned

/-- Strips the final dot-extension, the regex `\.[^/.]+$` of the source: a
last dot followed by one or more characters none of which is `.` or `/`. -/
def stripExt (f : List Char) : List Char :=
  let r := f.reverse
  let suf := r.takeWhile (fun c => !(c == '.') && !(c == '/'))
  match r.drop suf.length with
  | '.' :: restR => if suf = [] then f else restR.reverse
  | _ => f

/-- Index of the first occurrence of a character, JavaScript `indexOf`. -/
def firstIdxOf (c : Char) : List Char → Option Nat
  | [] => none
  | x :: xs => if x = c then some 0 else (firstIdxOf c xs).map (· + 1)

/-- The split index used by the first-variant parser: the smaller of the first
`_` index and the first `-` index, when at least one separator occurs. -/
def minSepIdx (base : List Char) : Option Nat :=
  match firstIdxOf '_' base, firstIdxOf '-' base with
  | some i, some j => some (min i j)
  | some i, none => some i
  | none, some j => some j
  | none, none => none

/-- JavaScript `toLowerCase`, on the ASCII alphabet. -/
def lowerL (l : List Char) : List Char := l.map Char.toLower

/-- JavaScript `String.startsWith`: `lstartsWith s p` is true when `p` is a
prefix of `s`. -/
def lstartsWith : List Char → List Char → Bool
  | _, [] => true
  | [], _ :: _ => false
  | c :: cs, p :: ps => c == p && lstartsWith cs ps

/-- The fallback label used when a filename yields an empty model substring. -/
def modelFallback : List Char := "model".toList

namespace V1

/-- `parseModelPrefix` of the first variant: strip the extension, split at the
smaller of the first `_` and first `-` indices, and fall back to `"model"`
when the resulting label (or the whole base name) is empty. -/
def parseModelLabel (filename : List Char) : List Char :=
  let base := stripExt filename
  match minSepIdx base with
  | some i => if base.take i = [] then modelFallback else base.take i
  | none => if base = [] then modelFallback else base

/-- `parseIdSuffix` of the first variant: drop the model label when it is a
case-insensitive prefix of the base name, otherwise drop everything up to and
including the first separator; strip leading `[-_.\s]+`; normalize, falling
back to the whole base name when the remainder is empty. -/
def parseIdSuffix (filename : List Char) (modelLabel : List Char) : List Char :=
  let base := stripExt filename
  let rest :=
    if modelLabel ≠ [] ∧ lstartsWith (lowerL base) (lowerL modelLabel) = true then
      base.drop modelLabel.length
    else
      match minSepIdx base with
      | some i => base.drop (i + 1)
      | none => base
  let rest2 := rest.dropWhile isSepWS
  normalizeId (if rest2 = [] then base else rest2)

end V1

/-- JavaScript `String.split` on a single separator character. -/
def splitOnChar (c : Char) : List Char → List (List Char)
  | [] => [[]]
  | x :: xs =>
    let r := splitOnChar c xs
    if x = c then [] :: r
    else
      match r with
      | [] => [[x]]
      | h :: t => (x :: h) :: t

namespace V2

/-- `parseModelPrefix` of the second variant: split the base name by `_` and by
`-`, keep the split with the fewer parts, and take its first part, falling back
to `"model"` when that part is empty. -/
def parseModelLabel (filename : List Char) : List Char :=
  let base := stripExt filename
  let partsByUnderscore := splitOnChar '_' base
  let partsByDash := splitOnChar '-' base
  let pick := if partsByUnderscore.length ≤ partsByDash.length then partsByUnderscore
              else partsByDash
  match pick with
  | [] => modelFallback
  | h :: _ => if h = [] then modelFallback else h

/-- `parseIdSuffix` of the second variant: as in the first variant but without
the final normalization step. -/
def parseIdSuffix (filename : List Char) (modelLabel : List Char) : List Char :=
  let base := stripExt filename
  let rest :=
    if modelLabel ≠ [] ∧ lstartsWith (lowerL base) (lowerL modelLabel) = true then
      base.drop modelLabel.length
    else
      match minSepIdx base with
      | some i => base.drop (i + 1)
      | none => base
  let rest2 := rest.dropWhile isSepWS
  if rest2 = [] then base else rest2

end V2

/-- First-match association lookup, the observable behaviour of reading a
JavaScript object property. -/
def alookup {κ α : Type} [DecidableEq κ] : List (κ × α) → κ → Option α
  | [], _ => none
  | (k, v) :: rest, key => if k = key then some v else alookup rest key

/-- JavaScript `replace(/^\"|\"$/g, "")`: one leading and one trailing double
quote removed. -/
def stripQuotes (l : List Char) : List Char :=
  let l1 := match l with
    | '"' :: t => t
    | _ => l
  match l1.reverse with
  | '"' :: rt => rt.reverse
  | _ => l1

/-- Splitting on the regex `\r?\n`, accumulating the current line reversed. -/
def splitLinesGo : List Char → List Char → List (List Char)
  | acc, [] => [acc.reverse]
  | acc, '\n' :: rest =>
    (match acc with
     | '\r' :: t => t.reverse
     | _ => acc.reverse) :: splitLinesGo [] rest
  | acc, c :: rest => splitLinesGo (c :: acc) rest

/-- JavaScript `text.split(/\r?\n/)`. -/
def jsSplitLines (l : List Char) : List (List Char) := splitLinesGo [] l

/-- The lines the CSV parser iterates over: blank lines are discarded. -/
def nonblankLines (text : List Char) : List (List Char) :=
  (jsSplitLines text).filter (fun l => !(jsTrim l).isEmpty)

/-- The auto-detected delimiter: `;` when the header line holds at least as
many `;` as `,`, otherwise `,`. -/
def csvDelim (text : List Char) : Char :=
  match nonblankLines text with
  | [] => ','
  | first :: _ => if first.count ';' ≥ first.count ',' then ';' else ','

/-- The row loop of `parseInstructionsCSV`: each line with the delimiter
yields a trimmed, quote-stripped id and instruction; the header row (index 0
with id `"id"`) and rows with an empty id are skipped; every kept row is
registered under its raw id and its normalized id.  Later registrations are
prepended, so `alookup` observes the same overwrite behaviour as assignment
to a JavaScript object. -/
def csvGo (delim : Char) : Nat → List (List Char) → List (List Char × List Char) →
    List (List Char × List Char)
  | _, [], acc => acc
  | i, line :: rest, acc =>
    match firstIdxOf delim line with
    | none => csvGo delim (i + 1) rest acc
    | some idx =>
      let id := stripQuotes (jsTrim (line.take idx))
      let ins := stripQuotes (jsTrim (line.drop (idx + 1)))
      if i = 0 ∧ lowerL id = "id".toList then csvGo delim (i + 1) rest acc
      else if id = [] then csvGo delim (i + 1) rest acc
      else csvGo delim (i + 1) rest ((normalizeId id, ins) :: (id, ins) :: acc)

/-- `parseInstructionsCSV` from `ImageArena.tsx`. -/
def parseInstructionsCSV (text : List Char) : List (List Char × List Char) :=
  match nonblankLines text with
  | [] => []
  | lines => csvGo (csvDelim text) 0 lines []

/-- One loaded candidate image (`LoadedImage` in the source; the `File` handle
is owned by the browser and carries no observable state here). -/
structure LoadedImage where
  url : String
  model : String
  name : String
  id : String
  deriving DecidableEq, Repr

/-- One evaluation pair. -/
structure Pair where
  left : LoadedImage
  right : LoadedImage
  deriving DecidableEq, Repr

/-- The vote choices; the first variant only ever produces `left` and `right`,
the second variant also `tie` and `both`. -/
inductive Choice where
  | left
  | right
  | tie
  | both
  deriving DecidableEq, Repr

/-- The `{name, model, id}` snapshot stored in a vote. -/
structure VoteImg where
  name : String
  model : String
  id : String
  deriving DecidableEq, Repr

/-- One recorded vote. -/
structure Vote where
  round : Nat
  left : VoteImg
  right : VoteImg
  choice : Choice
  winnerModel : Option String
  deriving DecidableEq, Repr

/-- The session phases of the component. -/
inductive Phase where
  | config
  | playing
  | results
  deriving DecidableEq, Repr

/-- The result document assembled by `finish` and handed to `downloadJSON`;
`wins` is the `winsByModel` record as an association list. -/
structure ResultDoc where
  models : String × String
  roundsPlanned : Nat
  roundsCompleted : Nat
  wins : List (String × Nat)
  ties : Nat
  bothBad : Nat
  votes : List Vote
  winner : String
  deriving DecidableEq, Repr

/-- The component state: React state hooks plus the `votesRef` mutable vote
log.  `justVoted` and `pending` model the first variant's 300 ms tick
animation: `pending` holds the `next` cursor values captured by the scheduled
`setTimeout` callbacks, in FIFO order.  `exports` records every result
document passed to the download sink. -/
structure ArenaState where
  rounds : Nat
  images : List LoadedImage
  phase : Phase
  current : Nat
  pairs : List Pair
  votes : List Vote
  justVoted : Option Choice
  pending : List Nat
  exports : List ResultDoc
  deriving DecidableEq, Repr

/-- `new Set(...)` materialised as a list: first occurrences, in order. -/
def insertUniq (acc : List String) (x : String) : List String :=
  if x ∈ acc then acc else acc ++ [x]

/-- `Array.from(new Set(l))`. -/
def jsSetList (l : List String) : List String := l.foldl insertUniq []

/-- `Array.from(new Set(images.map(i => i.model))).slice(0, 2)`. -/
def detectedModels (imgs : List LoadedImage) : List String :=
  (jsSetList (imgs.map (·.model))).take 2

/-- The first detected model, `""` when absent (a JavaScript `undefined`
destructuring target is falsy exactly like the empty string here). -/
def detM1 (imgs : List LoadedImage) : String :=
  ((detectedModels imgs).get? 0).getD ""

/-- The second detected model, `""` when absent. -/
def detM2 (imgs : List LoadedImage) : String :=
  ((detectedModels imgs).get? 1).getD ""

/-- Assignment `m[k] = v` on a JavaScript object: overwrite in place, append
when the key is new. -/
def setKey {α : Type} : List (String × α) → String → α → List (String × α)
  | [], k, v => [(k, v)]
  | (k', v') :: rest, k, v =>
    if k' = k then (k, v) :: rest else (k', v') :: setKey rest k v

/-- The keys of an association list. -/
def keysOf {α : Type} (m : List (String × α)) : List String := m.map (·.1)

/-- The id-indexed maps built by `startArena`: images of the first model into
the first map, images of the second model into the second. -/
def buildMapsGo (m1 m2 : String) :
    List LoadedImage → List (String × LoadedImage) → List (String × LoadedImage) →
    List (String × LoadedImage) × List (String × LoadedImage)
  | [], a1, a2 => (a1, a2)
  | img :: rest, a1, a2 =>
    if img.model = m1 then buildMapsGo m1 m2 rest (setKey a1 img.id img) a2
    else if img.model = m2 then buildMapsGo m1 m2 rest a1 (setKey a2 img.id img)
    else buildMapsGo m1 m2 rest a1 a2

/-- `buildMapsGo` started from empty maps. -/
def buildMaps (m1 m2 : String) (imgs : List LoadedImage) :
    List (String × LoadedImage) × List (String × LoadedImage) :=
  buildMapsGo m1 m2 imgs [] []

/-- `Object.keys(map1).filter(id => map2[id])`: the matched-id list.
JavaScript enumerates integer-like keys numerically before the remaining keys
in insertion order; the insertion order is used here, which has the same
elements and length, and the downstream shuffle oracle absorbs any
reordering. -/
def commonIdsOf (imgs : List LoadedImage) (m1 m2 : String) : List String :=
  (keysOf (buildMaps m1 m2 imgs).1).filter
    (fun id => (alookup (buildMaps m1 m2 imgs).2 id).isSome)

/-- Swap two positions of a list, total on out-of-range indices. -/
def listSwap {α : Type} (l : List α) (i j : Nat) : List α :=
  match l.get? i, l.get? j with
  | some x, some y => (l.set i y).set j x
  | _, _ => l

/-- The Fisher–Yates loop of `shuffleArray`, counting `i` downwards; the
oracle `rand` supplies `Math.random()*(i+1)` truncated, reduced mod `i+1` so
that every oracle corresponds to a valid draw. -/
def fyGo {α : Type} (rand : Nat → Nat) : Nat → List α → List α
  | 0, a => a
  | k + 1, a => fyGo rand k (listSwap a (k + 1) (rand (k + 1) % (k + 2)))

/-- `shuffleArray` from the first variant. -/
def shuffleArray {α : Type} (rand : Nat → Nat) (l : List α) : List α :=
  fyGo rand (l.length - 1) l

/-- The pair-building loop of `startArena`: for each matched id, look the two
images up and let the coin oracle pick which side each model occupies (the
lookups always succeed for ids drawn from the matched-id list, so the `none`
fallthrough mirroring the source's non-null assertion is never taken). -/
def buildPairsGo (map1 map2 : List (String × LoadedImage)) (coin : Nat → Bool) :
    Nat → List String → List Pair
  | _, [] => []
  | i, id :: rest =>
    match alookup map1 id, alookup map2 id with
    | some a, some b =>
      (if coin i then Pair.mk a b else Pair.mk b a) :: buildPairsGo map1 map2 coin (i + 1) rest
    | _, _ => buildPairsGo map1 map2 coin (i + 1) rest

/-- The first variant's `startArena`: detects the two models, builds the two
id maps, intersects the key sets, shuffles, assigns sides, and moves to the
playing phase with a fresh vote log; on failure it reports an error and
returns the state untouched. -/
def startArena1 (rand : Nat → Nat) (coin : Nat → Bool) (s : ArenaState) :
    ArenaState × Option String :=
  let m1 := detM1 s.images
  let m2 := detM2 s.images
  if m1 = "" ∨ m2 = "" then
    (s, some "Please provide images from exactly two models (use filename prefixes).")
  else
    let maps := buildMaps m1 m2 s.images
    let commonIds := commonIdsOf s.images m1 m2
    if commonIds = [] then
      (s, some "No matching pairs found (match by id after prefix, e.g., A_001 with B_001).")
    else
      let order := shuffleArray rand commonIds
      let newPairs := buildPairsGo maps.1 maps.2 coin 0 order
      ({ s with votes := [], pairs := newPairs, current := 0, phase := .playing }, none)

/-- The second variant's `startArena`: identical up to the matched ids, then
shuffles with `sort(() => Math.random() - 0.5)` — modelled by a caller
supplied reordering oracle — and truncates to `min(rounds, order.length)`. -/
def startArena2 (reorder : List String → List String) (coin : Nat → Bool) (s : ArenaState) :
    ArenaState × Option String :=
  let m1 := detM1 s.images
  let m2 := detM2 s.images
  if m1 = "" ∨ m2 = "" then
    (s, some "Please provide images from exactly two models (use filename prefixes).")
  else
    let maps := buildMaps m1 m2 s.images
    let commonIds := commonIdsOf s.images m1 m2
    if commonIds = [] then
      (s, some "No matching pairs found (match by id after prefix, e.g., A_001 with B_001).")
    else
      let order := reorder commonIds
      let maxRounds := min s.rounds order.length
      let newPairs := buildPairsGo maps.1 maps.2 coin 0 (order.take maxRounds)
      ({ s with votes := [], pairs := newPairs, current := 0, phase := .playing }, none)

/-- `winsByModel[m]++`: increment the first binding of `m`, leave the record
unchanged for a foreign key (the source would store `NaN` there; every key
actually incremented stems from a pair of the two detected models, so the
difference is unobservable in the reachable states considered here). -/
def incrKey : List (String × Nat) → String → List (String × Nat)
  | [], _ => []
  | (k, n) :: rest, m => if k = m then (k, n + 1) :: rest else (k, n) :: incrKey rest m

/-- `winsByModel[m]`, read back as a number (`0` when absent). -/
def getV (w : List (String × Nat)) (m : String) : Nat := (alookup w m).getD 0

/-- One vote folded into the first variant's tally: only a truthy
`winnerModel` counts. -/
def tallyStep1 (w : List (String × Nat)) (v : Vote) : List (String × Nat) :=
  match v.winnerModel with
  | some m => if m = "" then w else incrKey w m
  | none => w

/-- The tally loop of the first variant's `finish`; ties and "both bad" are
not represented. -/
def tally1 (m1 m2 : String) (votes : List Vote) : List (String × Nat) :=
  votes.foldl tallyStep1 [(m1, 0), (m2, 0)]

/-- One vote folded into the second variant's tally of
`(winsByModel, ties, bothBad)`. -/
def tallyStep2 (acc : List (String × Nat) × Nat × Nat) (v : Vote) :
    List (String × Nat) × Nat × Nat :=
  if v.choice = Choice.tie then (acc.1, acc.2.1 + 1, acc.2.2)
  else if v.choice = Choice.both then (acc.1, acc.2.1, acc.2.2 + 1)
  else
    match v.winnerModel with
    | some m => if m = "" then acc else (incrKey acc.1 m, acc.2.1, acc.2.2)
    | none => acc

/-- The tally loop of the second variant's `finish`. -/
def tally2 (m1 m2 : String) (votes : List Vote) : List (String × Nat) × Nat × Nat :=
  votes.foldl tallyStep2 ([(m1, 0), (m2, 0)], 0, 0)

/-- Well-formedness of a vote as produced by the first variant against the two
detected models: the winner is a non-empty label of one of them. -/
def voteWF1 (m1 m2 : String) (v : Vote) : Bool :=
  match v.winnerModel with
  | some m => !(m == "") && ((m == m1) || (m == m2))
  | none => false

/-- Well-formedness of a vote as produced by the second variant: tie and
"both bad" votes are unconstrained by the winner branch, the rest carry a
non-empty winner among the two models. -/
def voteWF2 (m1 m2 : String) (v : Vote) : Bool :=
  match v.choice with
  | Choice.tie => true
  | Choice.both => true
  | _ => voteWF1 m1 m2 v

/-- The `winner` field merged into the exported document. -/
def winnerOf (w : List (String × Nat)) (m1 m2 : String) : String :=
  if getV w m1 = getV w m2 then "tie"
  else if getV w m1 > getV w m2 then m1 else m2

/-- The result document of the first variant's `finish` (its `ties` and
`bothBad` fields are hard-coded zeros). -/
def mkResult1 (s : ArenaState) : ResultDoc :=
  let m1 := detM1 s.images
  let m2 := detM2 s.images
  let w := tally1 m1 m2 s.votes
  { models := (m1, m2), roundsPlanned := s.rounds, roundsCompleted := s.votes.length,
    wins := w, ties := 0, bothBad := 0, votes := s.votes, winner := winnerOf w m1 m2 }

/-- The result document of the second variant's `finish`. -/
def mkResult2 (s : ArenaState) : ResultDoc :=
  let m1 := detM1 s.images
  let m2 := detM2 s.images
  let r := tally2 m1 m2 s.votes
  { models := (m1, m2), roundsPlanned := s.rounds, roundsCompleted := s.votes.length,
    wins := r.1, ties := r.2.1, bothBad := r.2.2, votes := s.votes,
    winner := winnerOf r.1 m1 m2 }

/-- The first variant's `finish`: aggregate, export, switch to results. -/
def finish1 (s : ArenaState) : ArenaState :=
  { s with phase := .results, exports := s.exports ++ [mkResult1 s] }

/-- The second variant's `finish`. -/
def finish2 (s : ArenaState) : ArenaState :=
  { s with phase := .results, exports := s.exports ++ [mkResult2 s] }

/-- The vote snapshot pushed onto `votesRef.current`. -/
def mkVote (s : ArenaState) (pair : Pair) (choice : Choice) : Vote :=
  { round := s.current + 1,
    left := { name := pair.left.name, model := pair.left.model, id := pair.left.id },
    right := { name := pair.right.name, model := pair.right.model, id := pair.right.id },
    choice := choice,
    winnerModel :=
      if choice = Choice.left then some pair.left.model
      else if choice = Choice.right then some pair.right.model else none }

/-- The first variant's `vote`: a missing current pair aborts; otherwise the
vote is pushed, and for left/right choices a tick is shown and the advance is
deferred to a `setTimeout` callback that captured `next` (the other choices
advance immediately, mirroring the source's trailing advance code). -/
def vote1 (s : ArenaState) (choice : Choice) : ArenaState :=
  match s.pairs.get? s.current with
  | none => s
  | some pair =>
    let s1 := { s with votes := s.votes ++ [mkVote s pair choice] }
    let next := s.current + 1
    if choice = Choice.left ∨ choice = Choice.right then
      { s1 with justVoted := some choice, pending := s1.pending ++ [next] }
    else
      if s1.pairs.length ≤ next then finish1 s1 else { s1 with current := next }

/-- One scheduled advance callback firing: clear the tick and either finish or
advance to the `next` cursor the callback captured. -/
def timerFire1 (s : ArenaState) : ArenaState :=
  match s.pending with
  | [] => s
  | n :: rest =>
    let s1 := { s with pending := rest, justVoted := none }
    if s1.pairs.length ≤ n then finish1 s1 else { s1 with current := n }

/-- The second variant's `vote`: push and advance or finish synchronously. -/
def vote2 (s : ArenaState) (choice : Choice) : ArenaState :=
  match s.pairs.get? s.current with
  | none => s
  | some pair =>
    let s1 := { s with votes := s.votes ++ [mkVote s pair choice] }
    let next := s.current + 1
    if s1.pairs.length ≤ next then finish2 s1 else { s1 with current := next }

/-- The user-visible events of the first variant's voting loop: the two arrow
keys (`handleKeyDown` guards them with the phase check only) and one pending
`setTimeout` callback firing. -/
inductive AEvent where
  | keyLeft
  | keyRight
  | timerAdvance
  deriving DecidableEq, Repr

/-- One event step of the first variant. -/
def step1 (s : ArenaState) : AEvent → ArenaState
  | .keyLeft => if s.phase = Phase.playing then vote1 s Choice.left else s
  | .keyRight => if s.phase = Phase.playing then vote1 s Choice.right else s
  | .timerAdvance => timerFire1 s

/-- A sequence of events applied in order. -/
def runEvents1 (s : ArenaState) (es : List AEvent) : ArenaState := es.foldl step1 s

/-- The New Session button of the results card: `setPhase("config")` and
nothing else. -/
def resetSession (s : ArenaState) : ArenaState := { s with phase := .config }

/-- A deterministic shuffle oracle used to instantiate concrete runs. -/
def rand0 : Nat → Nat := fun _ => 0

/-- A deterministic coin oracle: model one always takes the left side. -/
def coinT : Nat → Bool := fun _ => true

/-- A deterministic reordering oracle for the second variant's sort. -/
def permId : List String → List String := fun l => l

/-- A concrete catalog image of model `alpha` with id `1`. -/
def exImgA : LoadedImage := ⟨"u1", "alpha", "alpha_001.png", "1"⟩

/-- A concrete catalog image of model `beta` with id `1`. -/
def exImgB : LoadedImage := ⟨"u2", "beta", "beta_001.png", "1"⟩

/-- A second `alpha` image, id `2`. -/
def exImgA2 : LoadedImage := ⟨"u3", "alpha", "alpha_002.png", "2"⟩

/-- A second `beta` image, id `2`. -/
def exImgB2 : LoadedImage := ⟨"u4", "beta", "beta_002.png", "2"⟩

/-- A configuring session holding one matched pair of images. -/
def exStart : ArenaState :=
  { rounds := 20, images := [exImgA, exImgB], phase := .config, current := 0,
    pairs := [], votes := [], justVoted := none, pending := [], exports := [] }

/-- The playing session reached from `exStart` (deterministic oracles). -/
def exPlaying : ArenaState := (startArena1 rand0 coinT exStart).1

/-- The trace of the tick-window double vote: two ArrowLeft presses before the
300 ms advance callbacks run, then both callbacks. -/
def exDouble : ArenaState :=
  runEvents1 exPlaying [.keyLeft, .keyLeft, .timerAdvance, .timerAdvance]

/-- A normally completed one-round session, now in the results phase. -/
def exResults : ArenaState := runEvents1 exPlaying [.keyLeft, .timerAdvance]

/-- A configuring session with two matched ids but a rounds setting of 1. -/
def exStartCap : ArenaState :=
  { rounds := 1, images := [exImgA, exImgA2, exImgB, exImgB2], phase := .config, current := 0,
    pairs := [], votes := [], justVoted := none, pending := [], exports := [] }

/-- A configuring session whose catalog holds a single model. -/
def exOneModel : ArenaState :=
  { rounds := 20, images := [exImgA, exImgA2], phase := .config, current := 0,
    pairs := [], votes := [], justVoted := none, pending := [], exports := [] }

/-- A concrete left vote with winner `alpha`. -/
def exVoteLeft : Vote :=
  { round := 1, left := ⟨"alpha_001.png", "alpha", "1"⟩, right := ⟨"beta_001.png", "beta", "1"⟩,
    choice := .left, winnerModel := some "alpha" }

/-- A concrete tie vote (second variant). -/
def exVoteTie : Vote :=
  { round := 2, left := ⟨"alpha_002.png", "alpha", "2"⟩, right := ⟨"beta_002.png", "beta", "2"⟩,
    choice := .tie, winnerModel := none }

end ModelDuelArena

namespace ModelDuelArena

theorem isSepWS_of_jsWS {c : Char} (h : jsWS c = true) : isSepWS c = true := by
  simp [isSepWS, h]

theorem dropWhile_subsumed {p q : α → Bool} (hpq : ∀ a, q a = true → p a = true) :
    ∀ l : List α, (l.dropWhile q).dropWhile p = l.dropWhile p := by
  intro l
  induction l with
  | nil => rfl
  | cons a t ih =>
    by_cases hq : q a = true
    · rw [List.dropWhile_cons_of_pos hq, List.dropWhile_cons_of_pos (hpq a hq), ih]
    · rw [List.dropWhile_cons, if_neg hq]

theorem dropWhile_head_false {p : α → Bool} :
    ∀ {l : List α} {c : α} {t : List α}, l.dropWhile p = c :: t → p c = false := by
  intro l
  induction l with
  | nil => intro c t h; simp [List.dropWhile] at h
  | cons a s ih =>
    intro c t h
    by_cases ha : p a = true
    · exact ih (by rwa [List.dropWhile_cons_of_pos ha] at h)
    · rw [List.dropWhile_cons, if_neg ha] at h
      cases h
      exact Bool.eq_false_iff.mpr ha

theorem mem_takeWhile_sat {p : α → Bool} :
    ∀ {l : List α} {a : α}, a ∈ l.takeWhile p → p a = true := by
  intro l
  induction l with
  | nil => intro a h; simp [List.takeWhile] at h
  | cons x t ih =>
    intro a h
    rw [List.takeWhile_cons] at h
    by_cases hx : p x = true
    · rw [if_pos hx] at h
      rcases List.mem_cons.mp h with h | h
      · exact h ▸ hx
      · exact ih h
    · rw [if_neg hx] at h; simp at h

theorem dropTrailWS_cons_nonws {c : Char} (hc : jsWS c = false) (t : List Char) :
    dropTrailWS (c :: t) = c :: dropTrailWS t := by
  unfold dropTrailWS
  rw [List.reverse_cons, List.dropWhile_append]
  by_cases h : t.reverse.dropWhile jsWS = []
  · simp [h, List.dropWhile_cons, hc]
  · rw [if_neg (by simpa using h), List.reverse_append]
    simp

theorem dropTrailWS_append_right {xs ys : List Char} (h : dropTrailWS ys ≠ []) :
    dropTrailWS (xs ++ ys) = xs ++ dropTrailWS ys := by
  have hrev : ys.reverse.dropWhile jsWS ≠ [] := by
    intro hc
    apply h
    unfold dropTrailWS
    rw [hc, List.reverse_nil]
  unfold dropTrailWS
  rw [List.reverse_append, List.dropWhile_append, if_neg (by simpa using hrev),
    List.reverse_append, List.reverse_reverse]

theorem cleaned_dropSeps {z : List Char} (h : z.dropWhile isSepWS ≠ []) :
    (jsTrim (z.dropWhile isSepWS)).dropWhile isSepWS = (jsTrim z).dropWhile isSepWS := by
  obtain ⟨c₀, t, hdc⟩ : ∃ c₀ t, z.dropWhile isSepWS = c₀ :: t := by
    cases hz : z.dropWhile isSepWS with
    | nil => exact absurd hz h
    | cons c₀ t => exact ⟨c₀, t, rfl⟩
  have hc₀sep : isSepWS c₀ = false := dropWhile_head_false hdc
  have hc₀ws : jsWS c₀ = false := by
    cases hw : jsWS c₀ with
    | false => rfl
    | true => exact absurd (isSepWS_of_jsWS hw) (by simp [hc₀sep])
  have htail : dropTrailWS (c₀ :: t) = c₀ :: dropTrailWS t := dropTrailWS_cons_nonws hc₀ws t
  have hlhs : (jsTrim (z.dropWhile isSepWS)).dropWhile isSepWS = c₀ :: dropTrailWS t := by
    rw [hdc]
    unfold jsTrim
    rw [List.dropWhile_cons, if_neg (by simp [hc₀ws]), htail,
      List.dropWhile_cons, if_neg (by simp [hc₀sep])]
  rw [hlhs]
  unfold jsTrim
  have hy : (z.dropWhile jsWS).dropWhile isSepWS = c₀ :: t := by
    rw [dropWhile_subsumed (fun a ha => isSepWS_of_jsWS ha), hdc]
  have hsplit : (z.dropWhile jsWS).takeWhile isSepWS ++ (c₀ :: t) = z.dropWhile jsWS := by
    rw [← hy, List.takeWhile_append_dropWhile]
  rw [← hsplit, dropTrailWS_append_right (by rw [htail]; simp), htail,
    List.dropWhile_append_of_pos (fun a ha => mem_takeWhile_sat ha),
    List.dropWhile_cons, if_neg (by simp [hc₀sep])]

theorem normalizeId_dropSeps {z : List Char} (h : z.dropWhile isSepWS ≠ []) :
    normalizeId (z.dropWhile isSepWS) = normalizeId z := by
  have hz : z ≠ [] := by
    intro hc; subst hc; simp [List.dropWhile] at h
  have hzd : z.dropWhile isSepWS ≠ [] := h
  unfold normalizeId
  rw [if_neg hzd, if_neg hz, cleaned_dropSeps h]

theorem firstIdxOf_get {c : Char} :
    ∀ {l : List Char} {i : Nat}, firstIdxOf c l = some i → l.get? i = some c := by
  intro l
  induction l with
  | nil => intro i h; simp [firstIdxOf] at h
  | cons x xs ih =>
    intro i h
    unfold firstIdxOf at h
    by_cases hx : x = c
    · rw [if_pos hx] at h
      cases h
      simp [hx]
    · rw [if_neg hx] at h
      cases hrec : firstIdxOf c xs with
      | none => rw [hrec] at h; simp at h
      | some j =>
        rw [hrec] at h
        simp only [Option.map_some'] at h
        cases h
        simpa using ih hrec

theorem minSepIdx_get {base : List Char} {i : Nat} (h : minSepIdx base = some i) :
    base.get? i = some '_' ∨ base.get? i = some '-' := by
  unfold minSepIdx at h
  cases hu : firstIdxOf '_' base with
  | none =>
    cases hd : firstIdxOf '-' base with
    | none => rw [hu, hd] at h; simp at h
    | some j =>
      rw [hu, hd] at h
      cases h
      exact Or.inr (firstIdxOf_get hd)
  | some iu =>
    cases hd : firstIdxOf '-' base with
    | none =>
      rw [hu, hd] at h
      cases h
      exact Or.inl (firstIdxOf_get hu)
    | some j =>
      rw [hu, hd] at h
      cases h
      by_cases hle : iu ≤ j
      · rw [Nat.min_eq_left hle]
        exact Or.inl (firstIdxOf_get hu)
      · rw [Nat.min_eq_right (Nat.le_of_not_le hle)]
        exact Or.inr (firstIdxOf_get hd)

theorem lstartsWith_append (x y : List Char) : lstartsWith (x ++ y) x = true := by
  induction x with
  | nil => cases y <;> rfl
  | cons c cs ih => simpa [lstartsWith] using ih

theorem parseIdSuffix_prefixBranch {f ml : List Char}
    (hml : ml ≠ [] ∧ lstartsWith (lowerL (stripExt f)) (lowerL ml) = true) :
    V1.parseIdSuffix f ml
      = normalizeId (if ((stripExt f).drop ml.length).dropWhile isSepWS = []
                     then stripExt f
                     else ((stripExt f).drop ml.length).dropWhile isSepWS) := by
  simp only [V1.parseIdSuffix]
  rw [if_pos hml]

theorem parseIdSuffix_sepBranch {f ml : List Char} {i : Nat}
    (hml : ¬(ml ≠ [] ∧ lstartsWith (lowerL (stripExt f)) (lowerL ml) = true))
    (h : minSepIdx (stripExt f) = some i) :
    V1.parseIdSuffix f ml
      = normalizeId (if ((stripExt f).drop (i + 1)).dropWhile isSepWS = []
                     then stripExt f
                     else ((stripExt f).drop (i + 1)).dropWhile isSepWS) := by
  simp only [V1.parseIdSuffix]
  rw [if_neg hml, h]

theorem parseId_endgame {base : List Char} {i : Nat}
    (R : List Char) (hR : R = (base.drop (i + 1)).dropWhile isSepWS) :
    normalizeId (if R = [] then base else R)
      = (if (base.drop (i + 1)).dropWhile isSepWS = [] then normalizeId base
         else normalizeId (base.drop (i + 1))) := by
  subst hR
  by_cases hnil : (base.drop (i + 1)).dropWhile isSepWS = []
  · rw [if_pos hnil, if_pos hnil]
  · rw [if_neg hnil, if_neg hnil]
    exact normalizeId_dropSeps hnil

/-- C6 (counterexample): for `"_001.png"` the first separator of the
extension-stripped base name `"_001"` sits at index 0, so the substring before
it is empty, yet the parser returns the fallback label `"model"` rather than
that empty substring. -/
theorem C6_counterexample :
    minSepIdx (stripExt "_001.png".toList) = some 0
    ∧ (stripExt "_001.png".toList).take 0 = []
    ∧ V1.parseModelLabel "_001.png".toList = "model".toList
    ∧ "model".toList ≠ ([] : List Char) := by
  refine ⟨by decide, by decide, by decide, by decide⟩

/-- C6 (amended): for every filename whose extension-stripped base name
contains a `_` or `-`, the first-variant parser yields a model label equal to
the substring before the first separator, falling back to the literal label
`"model"` when that substring is empty; and an id equal to the normalized
remainder after that separator, falling back to the normalized full base name
when that remainder consists only of separator and whitespace characters. -/
theorem C6_parse_first_variant (f : List Char) (i : Nat)
    (h : minSepIdx (stripExt f) = some i) :
    V1.parseModelLabel f
      = (if (stripExt f).take i = [] then modelFallback else (stripExt f).take i)
    ∧ V1.parseIdSuffix f (V1.parseModelLabel f)
      = (if ((stripExt f).drop (i + 1)).dropWhile isSepWS = []
         then normalizeId (stripExt f)
         else normalizeId ((stripExt f).drop (i + 1))) := by
  have hmodel : V1.parseModelLabel f
      = (if (stripExt f).take i = [] then modelFallback else (stripExt f).take i) := by
    simp only [V1.parseModelLabel]
    rw [h]
  refine ⟨hmodel, ?_⟩
  have hget : (stripExt f).get? i = some '_' ∨ (stripExt f).get? i = some '-' := minSepIdx_get h
  have hlt : i < (stripExt f).length := by
    rcases hget with hg | hg <;> exact (List.get?_eq_some.mp hg).1
  have hsep : isSepWS ((stripExt f).get ⟨i, hlt⟩) = true := by
    rcases hget with hg | hg <;>
      · rcases List.get?_eq_some.mp hg with ⟨_, hv⟩
        rw [hv]
        decide
  have hdropstep : ((stripExt f).drop i).dropWhile isSepWS
      = ((stripExt f).drop (i + 1)).dropWhile isSepWS := by
    rw [List.drop_eq_getElem_cons hlt, List.dropWhile_cons_of_pos (by simpa using hsep)]
  have hbasene : stripExt f ≠ [] := by
    intro hc
    rw [hc] at hlt
    simp at hlt
  by_cases htake : (stripExt f).take i = []
  · have hi0 : i = 0 := by
      rcases List.take_eq_nil_iff.mp htake with h0 | h0
      · exact h0
      · exact absurd h0 hbasene
    subst hi0
    rw [hmodel, if_pos htake]
    obtain ⟨c, ts, hbc⟩ : ∃ c ts, stripExt f = c :: ts := by
      cases hb : stripExt f with
      | nil => exact absurd hb hbasene
      | cons c ts => exact ⟨c, ts, rfl⟩
    have hcc : c = '_' ∨ c = '-' := by
      rcases hget with hg | hg
      · rw [hbc] at hg
        exact Or.inl (by simpa using hg)
      · rw [hbc] at hg
        exact Or.inr (by simpa using hg)
    have hnostart : lstartsWith (lowerL (stripExt f)) (lowerL modelFallback) = false := by
      rw [hbc]
      rcases hcc with hc | hc <;> subst hc <;> rfl
    have hml : ¬(modelFallback ≠ [] ∧ lstartsWith (lowerL (stripExt f)) (lowerL modelFallback) = true) := by
      simp [hnostart]
    rw [parseIdSuffix_sepBranch hml h]
    exact parseId_endgame _ rfl
  · rw [hmodel, if_neg htake]
    have hsplit : lowerL (stripExt f)
        = lowerL ((stripExt f).take i) ++ lowerL ((stripExt f).drop i) := by
      unfold lowerL
      rw [← List.map_append, List.take_append_drop]
    have hstart : lstartsWith (lowerL (stripExt f)) (lowerL ((stripExt f).take i)) = true := by
      rw [hsplit]
      exact lstartsWith_append _ _
    have hml : (stripExt f).take i ≠ []
        ∧ lstartsWith (lowerL (stripExt f)) (lowerL ((stripExt f).take i)) = true :=
      ⟨htake, hstart⟩
    have hlen : ((stripExt f).take i).length = i := by
      rw [List.length_take]
      exact Nat.min_eq_left (Nat.le_of_lt hlt)
    rw [parseIdSuffix_prefixBranch hml, hlen, hdropstep]
    exact parseId_endgame _ rfl

theorem csvGo_mem_mono {delim : Char} :
    ∀ (lines : List (List Char)) (i : Nat) (acc : List (List Char × List Char))
      (kv : List Char × List Char), kv ∈ acc → kv ∈ csvGo delim i lines acc := by
  intro lines
  induction lines with
  | nil => intro i acc kv hkv; exact hkv
  | cons line rest ih =>
    intro i acc kv hkv
    unfold csvGo
    cases firstIdxOf delim line with
    | none => exact ih _ _ _ hkv
    | some idx =>
      dsimp only
      by_cases hhd : i = 0 ∧ lowerL (stripQuotes (jsTrim (line.take idx))) = "id".toList
      · rw [if_pos hhd]
        exact ih _ _ _ hkv
      · rw [if_neg hhd]
        by_cases hempty : stripQuotes (jsTrim (line.take idx)) = []
        · rw [if_pos hempty]
          exact ih _ _ _ hkv
        · rw [if_neg hempty]
          exact ih _ _ _ (by simp [hkv])

theorem csvGo_registers {delim : Char} :
    ∀ (lines : List (List Char)) (n i : Nat) (acc : List (List Char × List Char))
      (line : List Char) (idx : Nat),
      lines.get? n = some line → firstIdxOf delim line = some idx →
      stripQuotes (jsTrim (line.take idx)) ≠ [] →
      ¬(i + n = 0 ∧ lowerL (stripQuotes (jsTrim (line.take idx))) = "id".toList) →
      (stripQuotes (jsTrim (line.take idx)), stripQuotes (jsTrim (line.drop (idx + 1))))
          ∈ csvGo delim i lines acc
      ∧ (normalizeId (stripQuotes (jsTrim (line.take idx))),
          stripQuotes (jsTrim (line.drop (idx + 1)))) ∈ csvGo delim i lines acc := by
  intro lines
  induction lines with
  | nil => intro n i acc line idx hget; simp at hget
  | cons l rest ih =>
    intro n i acc line idx hget hidx hne hhdr
    cases n with
    | zero =>
      cases hget
      unfold csvGo
      rw [hidx]
      dsimp only
      rw [if_neg (by simpa using hhdr), if_neg hne]
      constructor
      · exact csvGo_mem_mono _ _ _ _ (by simp)
      · exact csvGo_mem_mono _ _ _ _ (by simp)
    | succ m =>
      have hget' : rest.get? m = some line := hget
      have hhdr2' : ¬((i + 1) + m = 0 ∧ lowerL (stripQuotes (jsTrim (line.take idx))) = "id".toList) := by
        intro hc
        exact absurd hc.1 (by omega)
      unfold csvGo
      cases hfi : firstIdxOf delim l with
      | none => exact ih m (i + 1) acc line idx hget' hidx hne hhdr2'
      | some jdx =>
        dsimp only
        by_cases hhd : i = 0 ∧ lowerL (stripQuotes (jsTrim (l.take jdx))) = "id".toList
        · rw [if_pos hhd]
          exact ih m (i + 1) acc line idx hget' hidx hne hhdr2'
        · rw [if_neg hhd]
          by_cases hempty : stripQuotes (jsTrim (l.take jdx)) = []
          · rw [if_pos hempty]
            exact ih m (i + 1) acc line idx hget' hidx hne hhdr2'
          · rw [if_neg hempty]
            exact ih m (i + 1) _ line idx hget' hidx hne hhdr2'

/-- C8: instruction-CSV parsing picks `;` as delimiter whenever the header
line holds at least as many `;` as `,` (so `;` wins ties, else `,`); every
data row that contains the delimiter and has a non-empty id (and is not the
header row) is registered under both its raw id and its normalized id; and the
CSV `id;instruction` / `001;Draw a cat` yields the value `"Draw a cat"` under
both key `"001"` and key `"1"`. -/
theorem C8_csv_delimiter_and_registration :
    (∀ (text first : List Char) (rest : List (List Char)),
        nonblankLines text = first :: rest →
        csvDelim text = (if first.count ';' ≥ first.count ',' then ';' else ','))
    ∧ (∀ (text line : List Char) (n idx : Nat),
        (nonblankLines text).get? n = some line →
        firstIdxOf (csvDelim text) line = some idx →
        stripQuotes (jsTrim (line.take idx)) ≠ [] →
        ¬(n = 0 ∧ lowerL (stripQuotes (jsTrim (line.take idx))) = "id".toList) →
        (stripQuotes (jsTrim (line.take idx)), stripQuotes (jsTrim (line.drop (idx + 1))))
            ∈ parseInstructionsCSV text
        ∧ (normalizeId (stripQuotes (jsTrim (line.take idx))),
            stripQuotes (jsTrim (line.drop (idx + 1)))) ∈ parseInstructionsCSV text)
    ∧ alookup (parseInstructionsCSV "id;instruction\n001;Draw a cat".toList) "001".toList
        = some "Draw a cat".toList
    ∧ alookup (parseInstructionsCSV "id;instruction\n001;Draw a cat".toList) "1".toList
        = some "Draw a cat".toList
    ∧ alookup (parseInstructionsCSV "id;b,c\n001;x,y".toList) "001".toList
        = some "x,y".toList
    ∧ alookup (parseInstructionsCSV "id,instruction\n002,Dog".toList) "2".toList
        = some "Dog".toList := by
  refine ⟨?_, ?_, by decide, by decide, by decide, by decide⟩
  · intro text first rest h
    unfold csvDelim
    rw [h]
  · intro text line n idx hget hidx hne hhdr
    cases hnl : nonblankLines text with
    | nil =>
      rw [hnl] at hget
      simp at hget
    | cons first rest =>
      rw [hnl] at hget
      have hmain := @csvGo_registers (csvDelim text) (first :: rest) n 0 [] line idx
        hget hidx hne (by simpa using hhdr)
      unfold parseInstructionsCSV
      rw [hnl]
      exact hmain

/-- C7: `normalizeId` trims whitespace, strips a leading run of `-`, `_`, `.`
and whitespace, strips leading zeros of an all-digit remainder (all zeros give
`"0"`) and otherwise returns the cleaned string unchanged; in particular
`normalizeId "007" = "7"`, `normalizeId "000" = "0"` and
`normalizeId "A-01" = "A-01"`. -/
theorem C7_normalize_matches_spec :
    (∀ s : List Char, normalizeId s = c7SpecNormalize s)
    ∧ normalizeId "007".toList = "7".toList
    ∧ normalizeId "000".toList = "0".toList
    ∧ normalizeId "A-01".toList = "A-01".toList := by
  refine ⟨fun s => ?_, by decide, by decide, by decide⟩
  by_cases h : s = []
  · subst h; decide
  · simp [normalizeId, c7SpecNormalize, normCore, h]

theorem insertUniq_nodup {acc : List String} {x : String} (h : acc.Nodup) :
    (insertUniq acc x).Nodup := by
  unfold insertUniq
  by_cases hx : x ∈ acc
  · rw [if_pos hx]; exact h
  · rw [if_neg hx]
    simp [List.nodup_append, h, hx]

theorem foldl_insertUniq_nodup :
    ∀ (l : List String) (acc : List String), acc.Nodup → (l.foldl insertUniq acc).Nodup := by
  intro l
  induction l with
  | nil => intro acc h; exact h
  | cons x xs ih => intro acc h; exact ih _ (insertUniq_nodup h)

theorem jsSetList_nodup (l : List String) : (jsSetList l).Nodup :=
  foldl_insertUniq_nodup l [] List.nodup_nil

theorem detectedModels_nodup (imgs : List LoadedImage) : (detectedModels imgs).Nodup :=
  (List.take_sublist 2 _).nodup (jsSetList_nodup _)

theorem nodup_get01_ne {l : List String} {a b : String}
    (hn : l.Nodup) (h0 : l.get? 0 = some a) (h1 : l.get? 1 = some b) : a ≠ b := by
  match l with
  | [] => simp at h0
  | [x] => simp at h1
  | x :: y :: rest =>
    simp only [List.get?] at h0 h1
    cases h0
    cases h1
    rcases List.nodup_cons.mp hn with ⟨hx, _⟩
    intro hc
    exact hx (hc ▸ List.mem_cons_self _ _)

theorem detM2_get {imgs : List LoadedImage} (h : detM2 imgs ≠ "") :
    (detectedModels imgs).get? 1 = some (detM2 imgs) := by
  obtain ⟨x, hx⟩ : ∃ x, (detectedModels imgs).get? 1 = some x := by
    cases hg : (detectedModels imgs).get? 1 with
    | none =>
      exfalso
      unfold detM2 at h
      rw [hg] at h
      exact h rfl
    | some x => exact ⟨x, rfl⟩
  unfold detM2
  rw [hx]
  rfl

theorem detM1_get {imgs : List LoadedImage} (h : detM1 imgs ≠ "") :
    (detectedModels imgs).get? 0 = some (detM1 imgs) := by
  obtain ⟨x, hx⟩ : ∃ x, (detectedModels imgs).get? 0 = some x := by
    cases hg : (detectedModels imgs).get? 0 with
    | none =>
      exfalso
      unfold detM1 at h
      rw [hg] at h
      exact h rfl
    | some x => exact ⟨x, rfl⟩
  unfold detM1
  rw [hx]
  rfl

theorem detMs_ne {imgs : List LoadedImage}
    (h1 : detM1 imgs ≠ "") (h2 : detM2 imgs ≠ "") : detM1 imgs ≠ detM2 imgs :=
  nodup_get01_ne (detectedModels_nodup imgs) (detM1_get h1) (detM2_get h2)

theorem mem_setKey {α : Type} :
    ∀ {l : List (String × α)} {k : String} {v : α} {kv : String × α},
      kv ∈ setKey l k v → kv = (k, v) ∨ kv ∈ l := by
  intro l
  induction l with
  | nil =>
    intro k v kv h
    simp [setKey] at h
    exact Or.inl h
  | cons p rest ih =>
    intro k v kv h
    unfold setKey at h
    by_cases hk : p.1 = k
    · rw [if_pos (by rw [← hk])] at h
      rcases List.mem_cons.mp h with h | h
      · exact Or.inl h
      · exact Or.inr (List.mem_cons_of_mem _ h)
    · rw [if_neg (by exact hk)] at h
      rcases List.mem_cons.mp h with h | h
      · exact Or.inr (h ▸ List.mem_cons_self _ _)
      · rcases ih h with h | h
        · exact Or.inl h
        · exact Or.inr (List.mem_cons_of_mem _ h)

theorem mem_keysOf_setKey {α : Type} :
    ∀ {l : List (String × α)} {k : String} {v : α} {id : String},
      id ∈ keysOf (setKey l k v) ↔ id = k ∨ id ∈ keysOf l := by
  intro l
  induction l with
  | nil => intro k v id; simp [setKey, keysOf]
  | cons p rest ih =>
    intro k v id
    unfold setKey
    by_cases hk : p.1 = k
    · rw [if_pos (by rw [← hk])]
      simp only [keysOf, List.map_cons, List.mem_cons]
      constructor
      · rintro (h | h)
        · exact Or.inl h
        · exact Or.inr (Or.inr h)
      · rintro (h | h | h)
        · exact Or.inl h
        · exact Or.inl (by rw [h, hk])
        · exact Or.inr h
    · rw [if_neg (by exact hk)]
      simp only [keysOf, List.map_cons, List.mem_cons] at *
      constructor
      · rintro (h | h)
        · exact Or.inr (Or.inl h)
        · rcases ih.mp h with h | h
          · exact Or.inl h
          · exact Or.inr (Or.inr h)
      · rintro (h | h | h)
        · exact Or.inr (ih.mpr (Or.inl h))
        · exact Or.inl h
        · exact Or.inr (ih.mpr (Or.inr h))

theorem keysOf_setKey_nodup {α : Type} :
    ∀ {l : List (String × α)} {k : String} {v : α},
      (keysOf l).Nodup → (keysOf (setKey l k v)).Nodup := by
  intro l
  induction l with
  | nil => intro k v _; simp [setKey, keysOf]
  | cons p rest ih =>
    intro k v h
    rcases List.nodup_cons.mp h with ⟨hp, hrest⟩
    unfold setKey
    by_cases hk : p.1 = k
    · rw [if_pos (by rw [← hk])]
      refine List.nodup_cons.mpr ⟨?_, hrest⟩
      intro hc
      apply hp
      simpa [hk] using hc
    · rw [if_neg (by exact hk)]
      refine List.nodup_cons.mpr ⟨?_, ih hrest⟩
      intro hc
      rcases mem_keysOf_setKey.mp hc with h | h
      · exact hk h
      · exact hp h

theorem alookup_isSome_iff {α : Type} :
    ∀ {l : List (String × α)} {k : String}, (alookup l k).isSome = true ↔ k ∈ keysOf l := by
  intro l
  induction l with
  | nil => intro k; simp [alookup, keysOf]
  | cons p rest ih =>
    intro k
    unfold alookup
    by_cases hk : p.1 = k
    · rw [if_pos hk]
      simp [keysOf, hk.symm]
    · rw [if_neg hk]
      simp only [keysOf, List.map_cons, List.mem_cons]
      rw [ih]
      constructor
      · intro h; exact Or.inr h
      · rintro (h | h)
        · exact absurd h.symm hk
        · exact h

theorem alookup_mem {α : Type} :
    ∀ {l : List (String × α)} {k : String} {v : α}, alookup l k = some v → (k, v) ∈ l := by
  intro l
  induction l with
  | nil => intro k v h; simp [alookup] at h
  | cons p rest ih =>
    intro k v h
    unfold alookup at h
    by_cases hk : p.1 = k
    · rw [if_pos hk] at h
      cases h
      rw [← hk]
      simp
    · rw [if_neg hk] at h
      exact List.mem_cons_of_mem _ (ih h)

theorem buildMapsGo_inv1 {m1 m2 : String} :
    ∀ (imgs : List LoadedImage) (a1 a2 : List (String × LoadedImage)),
      (∀ kv ∈ a1, (kv : String × LoadedImage).2.model = m1 ∧ kv.2.id = kv.1) →
      ∀ kv ∈ (buildMapsGo m1 m2 imgs a1 a2).1,
        (kv : String × LoadedImage).2.model = m1 ∧ kv.2.id = kv.1 := by
  intro imgs
  induction imgs with
  | nil => intro a1 a2 h kv hkv; exact h kv hkv
  | cons img rest ih =>
    intro a1 a2 h kv hkv
    unfold buildMapsGo at hkv
    by_cases h1 : img.model = m1
    · rw [if_pos h1] at hkv
      refine ih _ _ ?_ kv hkv
      intro kv' hkv'
      rcases mem_setKey hkv' with h' | h'
      · subst h'; exact ⟨h1, rfl⟩
      · exact h kv' h'
    · rw [if_neg h1] at hkv
      by_cases h2 : img.model = m2
      · rw [if_pos h2] at hkv
        exact ih _ _ h kv hkv
      · rw [if_neg h2] at hkv
        exact ih _ _ h kv hkv

theorem buildMapsGo_inv2 {m1 m2 : String} :
    ∀ (imgs : List LoadedImage) (a1 a2 : List (String × LoadedImage)),
      (∀ kv ∈ a2, (kv : String × LoadedImage).2.model = m2 ∧ kv.2.id = kv.1) →
      ∀ kv ∈ (buildMapsGo m1 m2 imgs a1 a2).2,
        (kv : String × LoadedImage).2.model = m2 ∧ kv.2.id = kv.1 := by
  intro imgs
  induction imgs with
  | nil => intro a1 a2 h kv hkv; exact h kv hkv
  | cons img rest ih =>
    intro a1 a2 h kv hkv
    unfold buildMapsGo at hkv
    by_cases h1 : img.model = m1
    · rw [if_pos h1] at hkv
      exact ih _ _ h kv hkv
    · rw [if_neg h1] at hkv
      by_cases h2 : img.model = m2
      · rw [if_pos h2] at hkv
        refine ih _ _ ?_ kv hkv
        intro kv' hkv'
        rcases mem_setKey hkv' with h' | h'
        · subst h'; exact ⟨h2, rfl⟩
        · exact h kv' h'
      · rw [if_neg h2] at hkv
        exact ih _ _ h kv hkv

theorem buildMapsGo_keys1 {m1 m2 : String} :
    ∀ (imgs : List LoadedImage) (a1 a2 : List (String × LoadedImage)) (id : String),
      id ∈ keysOf (buildMapsGo m1 m2 imgs a1 a2).1
        ↔ id ∈ keysOf a1 ∨ ∃ img ∈ imgs, img.model = m1 ∧ img.id = id := by
  intro imgs
  induction imgs with
  | nil => intro a1 a2 id; simp [buildMapsGo]
  | cons img rest ih =>
    intro a1 a2 id
    unfold buildMapsGo
    by_cases h1 : img.model = m1
    · rw [if_pos h1, ih]
      simp only [mem_keysOf_setKey, List.mem_cons]
      constructor
      · rintro ((h | h) | h)
        · exact Or.inr ⟨img, Or.inl rfl, h1, h.symm⟩
        · exact Or.inl h
        · rcases h with ⟨im, him, hm, hid⟩
          exact Or.inr ⟨im, Or.inr him, hm, hid⟩
      · rintro (h | ⟨im, (him | him), hm, hid⟩)
        · exact Or.inl (Or.inr h)
        · exact Or.inl (Or.inl (him ▸ hid).symm)
        · exact Or.inr ⟨im, him, hm, hid⟩
    · rw [if_neg h1]
      have hnext :
          (if img.model = m2
            then buildMapsGo m1 m2 rest a1 (setKey a2 img.id img)
            else buildMapsGo m1 m2 rest a1 a2).1
            = (buildMapsGo m1 m2 rest a1 (if img.model = m2 then setKey a2 img.id img else a2)).1 := by
        by_cases h2 : img.model = m2
        · rw [if_pos h2, if_pos h2]
        · rw [if_neg h2, if_neg h2]
      rw [hnext, ih]
      constructor
      · rintro (h | ⟨im, him, hm, hid⟩)
        · exact Or.inl h
        · exact Or.inr ⟨im, List.mem_cons_of_mem _ him, hm, hid⟩
      · rintro (h | ⟨im, him, hm, hid⟩)
        · exact Or.inl h
        · rcases List.mem_cons.mp him with him | him
          · exact absurd (him ▸ hm) h1
          · exact Or.inr ⟨im, him, hm, hid⟩

theorem buildMapsGo_keys2 {m1 m2 : String} :
    ∀ (imgs : List LoadedImage) (a1 a2 : List (String × LoadedImage)) (id : String),
      id ∈ keysOf (buildMapsGo m1 m2 imgs a1 a2).2
        ↔ id ∈ keysOf a2 ∨ ∃ img ∈ imgs, img.model ≠ m1 ∧ img.model = m2 ∧ img.id = id := by
  intro imgs
  induction imgs with
  | nil => intro a1 a2 id; simp [buildMapsGo]
  | cons img rest ih =>
    intro a1 a2 id
    unfold buildMapsGo
    by_cases h1 : img.model = m1
    · rw [if_pos h1, ih]
      constructor
      · rintro (h | ⟨im, him, hm, hid⟩)
        · exact Or.inl h
        · exact Or.inr ⟨im, List.mem_cons_of_mem _ him, hm, hid⟩
      · rintro (h | ⟨im, him, hne, hm, hid⟩)
        · exact Or.inl h
        · rcases List.mem_cons.mp him with him | him
          · exact absurd (him ▸ h1) hne
          · exact Or.inr ⟨im, him, hne, hm, hid⟩
    · rw [if_neg h1]
      by_cases h2 : img.model = m2
      · rw [if_pos h2, ih]
        simp only [mem_keysOf_setKey, List.mem_cons]
        constructor
        · rintro ((h | h) | h)
          · exact Or.inr ⟨img, Or.inl rfl, h1, h2, h.symm⟩
          · exact Or.inl h
          · rcases h with ⟨im, him, hne, hm, hid⟩
            exact Or.inr ⟨im, Or.inr him, hne, hm, hid⟩
        · rintro (h | ⟨im, (him | him), hne, hm, hid⟩)
          · exact Or.inl (Or.inr h)
          · exact Or.inl (Or.inl (him ▸ hid).symm)
          · exact Or.inr ⟨im, him, hne, hm, hid⟩
      · rw [if_neg h2, ih]
        constructor
        · rintro (h | ⟨im, him, hne, hm, hid⟩)
          · exact Or.inl h
          · exact Or.inr ⟨im, List.mem_cons_of_mem _ him, hne, hm, hid⟩
        · rintro (h | ⟨im, him, hne, hm, hid⟩)
          · exact Or.inl h
          · rcases List.mem_cons.mp him with him | him
            · exact absurd (him ▸ hm) h2
            · exact Or.inr ⟨im, him, hne, hm, hid⟩

theorem buildMapsGo_keys1_nodup {m1 m2 : String} :
    ∀ (imgs : List LoadedImage) (a1 a2 : List (String × LoadedImage)),
      (keysOf a1).Nodup → (keysOf (buildMapsGo m1 m2 imgs a1 a2).1).Nodup := by
  intro imgs
  induction imgs with
  | nil => intro a1 a2 h; exact h
  | cons img rest ih =>
    intro a1 a2 h
    unfold buildMapsGo
    by_cases h1 : img.model = m1
    · rw [if_pos h1]
      exact ih _ _ (keysOf_setKey_nodup h)
    · rw [if_neg h1]
      by_cases h2 : img.model = m2
      · rw [if_pos h2]; exact ih _ _ h
      · rw [if_neg h2]; exact ih _ _ h

theorem length_listSwap {α : Type} (l : List α) (i j : Nat) :
    (listSwap l i j).length = l.length := by
  unfold listSwap
  cases hi : l.get? i with
  | none => rfl
  | some x =>
    cases hj : l.get? j with
    | none => rfl
    | some y => simp

theorem mem_of_mem_listSwap {α : Type} {l : List α} {i j : Nat} {a : α}
    (h : a ∈ listSwap l i j) : a ∈ l := by
  unfold listSwap at h
  cases hi : l.get? i with
  | none => rw [hi] at h; exact h
  | some x =>
    cases hj : l.get? j with
    | none => rw [hi, hj] at h; exact h
    | some y =>
      rw [hi, hj] at h
      rcases List.mem_or_eq_of_mem_set h with h1 | h1
      · rcases List.mem_or_eq_of_mem_set h1 with h2 | h2
        · exact h2
        · exact h2 ▸ List.get?_mem hj
      · exact h1 ▸ List.get?_mem hi

theorem length_fyGo {α : Type} (rand : Nat → Nat) :
    ∀ (k : Nat) (l : List α), (fyGo rand k l).length = l.length := by
  intro k
  induction k with
  | zero => intro l; rfl
  | succ n ih =>
    intro l
    unfold fyGo
    rw [ih, length_listSwap]

theorem mem_of_mem_fyGo {α : Type} (rand : Nat → Nat) :
    ∀ {k : Nat} {l : List α} {a : α}, a ∈ fyGo rand k l → a ∈ l := by
  intro k
  induction k with
  | zero => intro l a h; exact h
  | succ n ih =>
    intro l a h
    unfold fyGo at h
    exact mem_of_mem_listSwap (ih h)

theorem length_shuffleArray {α : Type} (rand : Nat → Nat) (l : List α) :
    (shuffleArray rand l).length = l.length := length_fyGo rand _ l

theorem mem_of_mem_shuffleArray {α : Type} {rand : Nat → Nat} {l : List α} {a : α}
    (h : a ∈ shuffleArray rand l) : a ∈ l := mem_of_mem_fyGo rand h

theorem length_buildPairsGo {map1 map2 : List (String × LoadedImage)} {coin : Nat → Bool} :
    ∀ (order : List String) (i : Nat),
      (∀ id ∈ order, (alookup map1 id).isSome = true ∧ (alookup map2 id).isSome = true) →
      (buildPairsGo map1 map2 coin i order).length = order.length := by
  intro order
  induction order with
  | nil => intro i _; rfl
  | cons id rest ih =>
    intro i h
    have hid := h id (List.mem_cons_self _ _)
    obtain ⟨a, ha⟩ := Option.isSome_iff_exists.mp hid.1
    obtain ⟨b, hb⟩ := Option.isSome_iff_exists.mp hid.2
    unfold buildPairsGo
    rw [ha, hb]
    simp only [List.length_cons]
    rw [ih (i + 1) (fun id' h' => h id' (List.mem_cons_of_mem _ h'))]

theorem mem_buildPairsGo {map1 map2 : List (String × LoadedImage)} {coin : Nat → Bool} :
    ∀ {order : List String} {i : Nat} {p : Pair},
      p ∈ buildPairsGo map1 map2 coin i order →
      ∃ id a b, alookup map1 id = some a ∧ alookup map2 id = some b ∧
        (p = Pair.mk a b ∨ p = Pair.mk b a) := by
  intro order
  induction order with
  | nil => intro i p h; simp [buildPairsGo] at h
  | cons id rest ih =>
    intro i p h
    unfold buildPairsGo at h
    cases ha : alookup map1 id with
    | none => rw [ha] at h; exact ih h
    | some a =>
      cases hb : alookup map2 id with
      | none => rw [ha, hb] at h; exact ih h
      | some b =>
        rw [ha, hb] at h
        rcases List.mem_cons.mp h with h | h
        · by_cases hc : coin i = true
          · rw [if_pos hc] at h
            exact ⟨id, a, b, ha, hb, Or.inl h⟩
          · rw [if_neg hc] at h
            exact ⟨id, a, b, ha, hb, Or.inr h⟩
        · exact ih h

theorem mem_commonIdsOf {imgs : List LoadedImage} {m1 m2 : String} {id : String}
    (hne : m1 ≠ m2) :
    id ∈ commonIdsOf imgs m1 m2
      ↔ (∃ img ∈ imgs, (img : LoadedImage).model = m1 ∧ img.id = id)
        ∧ (∃ img ∈ imgs, (img : LoadedImage).model = m2 ∧ img.id = id) := by
  unfold commonIdsOf
  rw [List.mem_filter]
  constructor
  · rintro ⟨hk, hs⟩
    have h1 := (buildMapsGo_keys1 imgs [] [] id).mp hk
    have h2 := (buildMapsGo_keys2 imgs [] [] id).mp (alookup_isSome_iff.mp hs)
    rcases h1 with h1 | h1
    · simp [keysOf] at h1
    rcases h2 with h2 | h2
    · simp [keysOf] at h2
    exact ⟨h1, by
      rcases h2 with ⟨im, him, _, hm, hid⟩
      exact ⟨im, him, hm, hid⟩⟩
  · rintro ⟨⟨im1, him1, hm1, hid1⟩, ⟨im2, him2, hm2, hid2⟩⟩
    refine ⟨(buildMapsGo_keys1 imgs [] [] id).mpr (Or.inr ⟨im1, him1, hm1, hid1⟩), ?_⟩
    refine alookup_isSome_iff.mpr ((buildMapsGo_keys2 imgs [] [] id).mpr ?_)
    exact Or.inr ⟨im2, him2, by rw [hm2]; exact hne.symm, hm2, hid2⟩

theorem commonIdsOf_nodup (imgs : List LoadedImage) (m1 m2 : String) :
    (commonIdsOf imgs m1 m2).Nodup := by
  unfold commonIdsOf
  exact (List.filter_sublist _).nodup (buildMapsGo_keys1_nodup imgs [] [] (by simp [keysOf]))

theorem commonIds_lookups {imgs : List LoadedImage} {m1 m2 : String} {id : String}
    (h : id ∈ commonIdsOf imgs m1 m2) :
    (alookup (buildMaps m1 m2 imgs).1 id).isSome = true
    ∧ (alookup (buildMaps m1 m2 imgs).2 id).isSome = true := by
  unfold commonIdsOf at h
  rcases List.mem_filter.mp h with ⟨hk, hs⟩
  exact ⟨alookup_isSome_iff.mpr hk, hs⟩

theorem incrKey_keys : ∀ (w : List (String × Nat)) (m : String),
    keysOf (incrKey w m) = keysOf w := by
  intro w
  induction w with
  | nil => intro m; rfl
  | cons p rest ih =>
    intro m
    unfold incrKey
    by_cases hk : p.1 = m
    · rw [if_pos (by rw [← hk])]
      simp [keysOf, hk]
    · rw [if_neg (by exact hk)]
      simp only [keysOf, List.map_cons]
      rw [show List.map (fun x => x.1) (incrKey rest m) = keysOf (incrKey rest m) from rfl, ih]
      rfl

theorem incrKey_getV_self : ∀ {w : List (String × Nat)} {m : String},
    m ∈ keysOf w → getV (incrKey w m) m = getV w m + 1 := by
  intro w
  induction w with
  | nil => intro m h; simp [keysOf] at h
  | cons p rest ih =>
    intro m h
    unfold incrKey
    by_cases hk : p.1 = m
    · rw [if_pos (by rw [← hk])]
      unfold getV alookup
      rw [if_pos hk, if_pos hk]
      rfl
    · rw [if_neg (by exact hk)]
      unfold getV alookup
      rw [if_neg (by exact hk), if_neg (by exact hk)]
      have hm : m ∈ keysOf rest := by
        rcases List.mem_cons.mp h with h | h
        · exact absurd h.symm hk
        · exact h
      exact ih hm

theorem incrKey_getV_other : ∀ {w : List (String × Nat)} {m m' : String},
    m' ≠ m → getV (incrKey w m) m' = getV w m' := by
  intro w
  induction w with
  | nil => intro m m' _; rfl
  | cons p rest ih =>
    intro m m' hne
    unfold incrKey
    by_cases hk : p.1 = m
    · rw [if_pos (by rw [← hk])]
      unfold getV alookup
      have hp' : ¬(p.1 = m') := fun hc => hne (by rw [← hc, hk])
      rw [if_neg hp', if_neg hp']
    · rw [if_neg (by exact hk)]
      unfold getV alookup
      by_cases hp : p.1 = m'
      · rw [if_pos hp, if_pos hp]
      · rw [if_neg hp, if_neg hp]
        exact ih hne

theorem tally1_fold {m1 m2 : String} (hne : m1 ≠ m2) :
    ∀ (votes : List Vote) (w : List (String × Nat)),
      (∀ v ∈ votes, voteWF1 m1 m2 v = true) →
      m1 ∈ keysOf w → m2 ∈ keysOf w →
      getV (votes.foldl tallyStep1 w) m1 + getV (votes.foldl tallyStep1 w) m2
        = getV w m1 + getV w m2 + votes.length := by
  intro votes
  induction votes with
  | nil => intro w _ _ _; rfl
  | cons v rest ih =>
    intro w hwf h1 h2
    have hv := hwf v (List.mem_cons_self _ _)
    unfold voteWF1 at hv
    cases hm : v.winnerModel with
    | none => rw [hm] at hv; simp at hv
    | some m =>
      rw [hm] at hv
      simp only [Bool.and_eq_true, Bool.or_eq_true, Bool.not_eq_true', beq_iff_eq,
        beq_eq_false_iff_ne] at hv
      obtain ⟨hmne, hm12⟩ := hv
      have hstep : tallyStep1 w v = incrKey w m := by
        unfold tallyStep1
        rw [hm]
        dsimp only
        rw [if_neg hmne]
      rw [List.foldl_cons, hstep]
      have hrest : ∀ v' ∈ rest, voteWF1 m1 m2 v' = true :=
        fun v' h' => hwf v' (List.mem_cons_of_mem _ h')
      rw [ih (incrKey w m) hrest (by rw [incrKey_keys]; exact h1)
        (by rw [incrKey_keys]; exact h2)]
      rcases hm12 with hm12 | hm12
      · subst hm12
        rw [incrKey_getV_self h1, incrKey_getV_other (fun hc => hne hc.symm)]
        simp only [List.length_cons]
        omega
      · subst hm12
        rw [incrKey_getV_self h2, incrKey_getV_other hne]
        simp only [List.length_cons]
        omega

theorem tally2_fold {m1 m2 : String} (hne : m1 ≠ m2) :
    ∀ (votes : List Vote) (acc : List (String × Nat) × Nat × Nat),
      (∀ v ∈ votes, voteWF2 m1 m2 v = true) →
      m1 ∈ keysOf acc.1 → m2 ∈ keysOf acc.1 →
      getV (votes.foldl tallyStep2 acc).1 m1 + getV (votes.foldl tallyStep2 acc).1 m2
          + (votes.foldl tallyStep2 acc).2.1 + (votes.foldl tallyStep2 acc).2.2
        = getV acc.1 m1 + getV acc.1 m2 + acc.2.1 + acc.2.2 + votes.length := by
  intro votes
  induction votes with
  | nil => intro acc _ _ _; rfl
  | cons v rest ih =>
    intro acc hwf h1 h2
    have hv := hwf v (List.mem_cons_self _ _)
    have hrest : ∀ v' ∈ rest, voteWF2 m1 m2 v' = true :=
      fun v' h' => hwf v' (List.mem_cons_of_mem _ h')
    rw [List.foldl_cons]
    by_cases htie : v.choice = Choice.tie
    · have hstep : tallyStep2 acc v = (acc.1, acc.2.1 + 1, acc.2.2) := by
        unfold tallyStep2
        rw [if_pos htie]
      rw [hstep, ih _ hrest (by exact h1) (by exact h2)]
      simp only [List.length_cons]
      omega
    · by_cases hboth : v.choice = Choice.both
      · have hstep : tallyStep2 acc v = (acc.1, acc.2.1, acc.2.2 + 1) := by
          unfold tallyStep2
          rw [if_neg htie, if_pos hboth]
        rw [hstep, ih _ hrest (by exact h1) (by exact h2)]
        simp only [List.length_cons]
        omega
      · have hv1 : voteWF1 m1 m2 v = true := by
          unfold voteWF2 at hv
          cases hc : v.choice with
          | tie => exact absurd hc htie
          | both => exact absurd hc hboth
          | left => rw [hc] at hv; exact hv
          | right => rw [hc] at hv; exact hv
        unfold voteWF1 at hv1
        cases hm : v.winnerModel with
        | none => rw [hm] at hv1; simp at hv1
        | some m =>
          rw [hm] at hv1
          simp only [Bool.and_eq_true, Bool.or_eq_true, Bool.not_eq_true', beq_iff_eq,
            beq_eq_false_iff_ne] at hv1
          obtain ⟨hmne, hm12⟩ := hv1
          have hstep : tallyStep2 acc v = (incrKey acc.1 m, acc.2.1, acc.2.2) := by
            unfold tallyStep2
            rw [if_neg htie, if_neg hboth, hm]
            dsimp only
            rw [if_neg hmne]
          rw [hstep, ih _ hrest (by rw [incrKey_keys]; exact h1)
            (by rw [incrKey_keys]; exact h2)]
          rcases hm12 with hm12 | hm12
          · subst hm12
            rw [incrKey_getV_self h1, incrKey_getV_other (fun hc => hne hc.symm)]
            simp only [List.length_cons]
            omega
          · subst hm12
            rw [incrKey_getV_self h2, incrKey_getV_other hne]
            simp only [List.length_cons]
            omega

/-- C1 (counterexample): a completed session sits in the results phase with a
non-empty catalog, pairs list and vote log; the New Session reset returns to
the configuring phase but none of the three collections is emptied, refuting
"afterwards the image catalog is empty, the pairs list is empty, and the vote
log is empty". -/
theorem C1_counterexample :
    exResults.phase = Phase.results
    ∧ (resetSession exResults).phase = Phase.config
    ∧ (resetSession exResults).images ≠ []
    ∧ (resetSession exResults).pairs ≠ []
    ∧ (resetSession exResults).votes ≠ [] := by
  refine ⟨by decide, by decide, by decide, by decide, by decide⟩

/-- C1 (amended): resetting from the results phase returns the session to the
configuring phase but retains the catalog, the pairs list and the vote log in
memory unchanged; they are discarded only when the next session is started. -/
theorem C1_reset_keeps_state (s : ArenaState) (h : s.phase = Phase.results) :
    (resetSession s).phase = Phase.config
    ∧ (resetSession s).images = s.images
    ∧ (resetSession s).pairs = s.pairs
    ∧ (resetSession s).votes = s.votes :=
  ⟨rfl, rfl, rfl, rfl⟩

/-- Witness for `C1_reset_keeps_state` at the concrete completed session. -/
theorem C1_reset_keeps_state_witness :
    exResults.phase = Phase.results
    ∧ ((resetSession exResults).phase = Phase.config
      ∧ (resetSession exResults).images = exResults.images
      ∧ (resetSession exResults).pairs = exResults.pairs
      ∧ (resetSession exResults).votes = exResults.votes) :=
  ⟨by decide, C1_reset_keeps_state exResults (by decide)⟩

/-- C2 (code-bug evaluation): in a one-pair session, pressing ArrowLeft twice
inside the 300 ms tick window records a second vote for the same round — the
vote log grows to 2 while only 1 round was planned — and the two scheduled
advance callbacks each trigger `finish`, exporting twice.  The buttons are
disabled during the window (`disabled={!!justVoted}`) but the keyboard handler
checks only the phase, so the claimed rejection does not happen. -/
theorem C2_double_vote_eval :
    exPlaying.phase = Phase.playing
    ∧ exPlaying.pairs.length = 1
    ∧ exPlaying.votes.length = 0
    ∧ exDouble.votes.length = 2
    ∧ exDouble.exports.length = 2
    ∧ exDouble.phase = Phase.results := by
  refine ⟨by decide, by decide, by decide, by decide, by decide, by decide⟩

/-- C9: when session start fails — fewer than two detected models, or an empty
matched-id intersection — `startArena` reports an error and returns the state
exactly as it was, so a configuring session stays in the configuring phase
with its catalog, pairs and vote log untouched. -/
theorem C9_start_failure_unchanged (r : Nat → Nat) (c : Nat → Bool) (s : ArenaState)
    (h : (detectedModels s.images).length < 2
      ∨ commonIdsOf s.images (detM1 s.images) (detM2 s.images) = []) :
    (startArena1 r c s).1 = s ∧ (startArena1 r c s).2 ≠ none := by
  simp only [startArena1]
  by_cases hg : detM1 s.images = "" ∨ detM2 s.images = ""
  · rw [if_pos hg]
    exact ⟨rfl, by simp⟩
  · rw [if_neg hg]
    push_neg at hg
    have hlen : ¬(detectedModels s.images).length < 2 := by
      intro hl
      apply hg.2
      unfold detM2
      rw [List.get?_eq_none.mpr (by omega)]
      rfl
    rcases h with h | h
    · exact absurd h hlen
    · rw [if_pos h]
      exact ⟨rfl, by simp⟩

/-- Witness for `C9_start_failure_unchanged` on a one-model catalog. -/
theorem C9_start_failure_unchanged_witness :
    (detectedModels exOneModel.images).length < 2
    ∧ ((startArena1 rand0 coinT exOneModel).1 = exOneModel
      ∧ (startArena1 rand0 coinT exOneModel).2 ≠ none) :=
  ⟨by decide, C9_start_failure_unchanged rand0 coinT exOneModel (Or.inl (by decide))⟩

/-- C10: when there is no pair at the current round cursor (empty pairs list
or cursor at or past its end, as in the configuring or results phase), `vote`
is a no-op in both variants: no vote is appended, no finish or export is
triggered, and the entire state is returned unchanged. -/
theorem C10_vote_noop (s : ArenaState) (c : Choice) (h : s.pairs.length ≤ s.current) :
    vote1 s c = s ∧ vote2 s c = s := by
  have hg : s.pairs.get? s.current = none := List.get?_eq_none.mpr h
  constructor
  · unfold vote1
    rw [hg]
  · unfold vote2
    rw [hg]

/-- Witness for `C10_vote_noop` on the configuring session with no pairs. -/
theorem C10_vote_noop_witness :
    exStart.pairs.length ≤ exStart.current
    ∧ (vote1 exStart Choice.left = exStart ∧ vote2 exStart Choice.left = exStart) :=
  ⟨by decide, C10_vote_noop exStart Choice.left (by decide)⟩

/-- C4: every pair produced by a successful session start pairs two images of
the two distinct detected models — `left.model ≠ right.model` — and the two
images carry the same (already normalized) identifier, `left.id = right.id`. -/
theorem C4_pair_models_distinct (r : Nat → Nat) (c : Nat → Bool) (s s' : ArenaState)
    (n : Nat) (p : Pair)
    (hstart : startArena1 r c s = (s', none))
    (hp : s'.pairs.get? n = some p) :
    p.left.model ≠ p.right.model ∧ p.left.id = p.right.id := by
  simp only [startArena1] at hstart
  by_cases hg : detM1 s.images = "" ∨ detM2 s.images = ""
  · rw [if_pos hg] at hstart
    exact absurd (congrArg Prod.snd hstart) (by simp)
  · rw [if_neg hg] at hstart
    by_cases hcm : commonIdsOf s.images (detM1 s.images) (detM2 s.images) = []
    · rw [if_pos hcm] at hstart
      exact absurd (congrArg Prod.snd hstart) (by simp)
    · rw [if_neg hcm] at hstart
      injection hstart with h1 h2
      subst h1
      dsimp only at hp
      have hmem := List.get?_mem hp
      obtain ⟨id, a, b, ha, hb, hor⟩ := mem_buildPairsGo hmem
      have hA := buildMapsGo_inv1 s.images [] [] (by simp) (id, a) (alookup_mem ha)
      have hB := buildMapsGo_inv2 s.images [] [] (by simp) (id, b) (alookup_mem hb)
      push_neg at hg
      have hmn : detM1 s.images ≠ detM2 s.images := detMs_ne hg.1 hg.2
      have hAm : a.model = detM1 s.images := hA.1
      have hBm : b.model = detM2 s.images := hB.1
      have hAi : a.id = id := hA.2
      have hBi : b.id = id := hB.2
      rcases hor with rfl | rfl
      · exact ⟨by rw [hAm, hBm]; exact hmn, by rw [hAi, hBi]⟩
      · exact ⟨by rw [hAm, hBm]; exact hmn.symm, by rw [hAi, hBi]⟩

/-- Witness for `C4_pair_models_distinct` on the concrete one-pair session. -/
theorem C4_pair_models_distinct_witness :
    startArena1 rand0 coinT exStart = (exPlaying, none)
    ∧ exPlaying.pairs.get? 0 = some (Pair.mk exImgA exImgB)
    ∧ ((Pair.mk exImgA exImgB).left.model ≠ (Pair.mk exImgA exImgB).right.model
      ∧ (Pair.mk exImgA exImgB).left.id = (Pair.mk exImgA exImgB).right.id) :=
  ⟨by decide, by decide,
    C4_pair_models_distinct rand0 coinT exStart exPlaying 0 (Pair.mk exImgA exImgB)
      (by decide) (by decide)⟩

/-- C5 (counterexample): with the rounds setting at 1 and two matched ids, the
first variant's session start builds 2 pairs — the configured round cap is
ignored there — refuting "the number of pairs produced equals the size of that
intersection, or the configured round cap when that cap is smaller". -/
theorem C5_counterexample :
    exStartCap.rounds = 1
    ∧ (commonIdsOf exStartCap.images (detM1 exStartCap.images) (detM2 exStartCap.images)).length = 2
    ∧ (startArena1 rand0 coinT exStartCap).2 = none
    ∧ (startArena1 rand0 coinT exStartCap).1.pairs.length = 2
    ∧ ¬((startArena1 rand0 coinT exStartCap).1.pairs.length
        = min exStartCap.rounds
            (commonIdsOf exStartCap.images (detM1 exStartCap.images)
              (detM2 exStartCap.images)).length) := by
  refine ⟨by decide, by decide, by decide, by decide, by decide⟩

/-- C5 (amended): the matched-id list computed at session start is exactly the
set intersection of the first model's ids and the second model's ids (and is
duplicate-free, so its length is the size of that intersection); on a
successful start the first variant builds one pair per matched id, ignoring
the configured rounds value, while the second variant builds
`min(rounds, |matched ids|)` pairs. -/
theorem C5_matched_ids_and_pair_counts :
    (∀ (imgs : List LoadedImage) (m1 m2 id : String), m1 ≠ m2 →
      (id ∈ commonIdsOf imgs m1 m2
        ↔ (∃ img ∈ imgs, (img : LoadedImage).model = m1 ∧ img.id = id)
          ∧ (∃ img ∈ imgs, (img : LoadedImage).model = m2 ∧ img.id = id)))
    ∧ (∀ (imgs : List LoadedImage) (m1 m2 : String), (commonIdsOf imgs m1 m2).Nodup)
    ∧ (∀ (r : Nat → Nat) (c : Nat → Bool) (s s' : ArenaState),
        startArena1 r c s = (s', none) →
        s'.pairs.length
          = (commonIdsOf s.images (detM1 s.images) (detM2 s.images)).length)
    ∧ (∀ (f : List String → List String) (c : Nat → Bool) (s s' : ArenaState),
        (∀ l, (f l).length = l.length ∧ ∀ x ∈ f l, x ∈ l) →
        startArena2 f c s = (s', none) →
        s'.pairs.length
          = min s.rounds
              (commonIdsOf s.images (detM1 s.images) (detM2 s.images)).length) := by
  refine ⟨fun imgs m1 m2 id hne => mem_commonIdsOf hne,
    fun imgs m1 m2 => commonIdsOf_nodup imgs m1 m2, ?_, ?_⟩
  · intro r c s s' hstart
    simp only [startArena1] at hstart
    by_cases hg : detM1 s.images = "" ∨ detM2 s.images = ""
    · rw [if_pos hg] at hstart
      exact absurd (congrArg Prod.snd hstart) (by simp)
    · rw [if_neg hg] at hstart
      by_cases hcm : commonIdsOf s.images (detM1 s.images) (detM2 s.images) = []
      · rw [if_pos hcm] at hstart
        exact absurd (congrArg Prod.snd hstart) (by simp)
      · rw [if_neg hcm] at hstart
        injection hstart with h1 h2
        subst h1
        dsimp only
        rw [length_buildPairsGo _ 0 ?_, length_shuffleArray]
        intro id hid
        exact commonIds_lookups (mem_of_mem_shuffleArray hid)
  · intro f c s s' hperm hstart
    simp only [startArena2] at hstart
    by_cases hg : detM1 s.images = "" ∨ detM2 s.images = ""
    · rw [if_pos hg] at hstart
      exact absurd (congrArg Prod.snd hstart) (by simp)
    · rw [if_neg hg] at hstart
      by_cases hcm : commonIdsOf s.images (detM1 s.images) (detM2 s.images) = []
      · rw [if_pos hcm] at hstart
        exact absurd (congrArg Prod.snd hstart) (by simp)
      · rw [if_neg hcm] at hstart
        injection hstart with h1 h2
        subst h1
        dsimp only
        rw [length_buildPairsGo _ 0 ?_]
        · rw [List.length_take,
            (hperm (commonIdsOf s.images (detM1 s.images) (detM2 s.images))).1]
          omega
        · intro id hid
          have hid' := List.mem_of_mem_take hid
          exact commonIds_lookups
            ((hperm (commonIdsOf s.images (detM1 s.images) (detM2 s.images))).2 id hid')

/-- Witness for `C5_matched_ids_and_pair_counts`: the matched id `"1"` of the
two-image catalog, duplicate-freeness, the first variant's pair count on the
one-pair session, and the second variant's capped pair count. -/
theorem C5_matched_ids_and_pair_counts_witness :
    "1" ∈ commonIdsOf [exImgA, exImgB] "alpha" "beta"
    ∧ (commonIdsOf [exImgA, exImgB] "alpha" "beta").Nodup
    ∧ (startArena1 rand0 coinT exStart).1.pairs.length
        = (commonIdsOf exStart.images (detM1 exStart.images) (detM2 exStart.images)).length
    ∧ (startArena2 permId coinT exStartCap).1.pairs.length
        = min exStartCap.rounds
            (commonIdsOf exStartCap.images (detM1 exStartCap.images)
              (detM2 exStartCap.images)).length :=
  ⟨(C5_matched_ids_and_pair_counts.1 [exImgA, exImgB] "alpha" "beta" "1" (by decide)).mpr
      ⟨⟨exImgA, by decide, rfl, rfl⟩, ⟨exImgB, by decide, rfl, rfl⟩⟩,
    C5_matched_ids_and_pair_counts.2.1 [exImgA, exImgB] "alpha" "beta",
    C5_matched_ids_and_pair_counts.2.2.1 rand0 coinT exStart (startArena1 rand0 coinT exStart).1
      (by decide),
    C5_matched_ids_and_pair_counts.2.2.2 permId coinT exStartCap
      (startArena2 permId coinT exStartCap).1
      (fun l => ⟨rfl, fun x hx => hx⟩) (by decide)⟩

/-- C3: for every vote log aggregated at session finish against the two
distinct detected models — so every vote is well formed for the variant that
recorded it — the exported tally satisfies
`winsByModel[m1] + winsByModel[m2] + ties + neitherCount = roundsCompleted`,
where `roundsCompleted` is the length of the vote log (the first variant
hard-codes `ties = neitherCount = 0` and every vote carries a winner). -/
theorem C3_aggregate_sum (m1 m2 : String) (votes : List Vote) (hne : m1 ≠ m2) :
    (votes.all (voteWF1 m1 m2) = true →
      getV (tally1 m1 m2 votes) m1 + getV (tally1 m1 m2 votes) m2 + 0 + 0 = votes.length)
    ∧ (votes.all (voteWF2 m1 m2) = true →
      getV (tally2 m1 m2 votes).1 m1 + getV (tally2 m1 m2 votes).1 m2
        + (tally2 m1 m2 votes).2.1 + (tally2 m1 m2 votes).2.2 = votes.length) := by
  have hk1 : m1 ∈ keysOf [(m1, 0), (m2, 0)] := by simp [keysOf]
  have hk2 : m2 ∈ keysOf [(m1, 0), (m2, 0)] := by simp [keysOf]
  have hg1 : getV [(m1, 0), (m2, 0)] m1 = 0 := by
    simp [getV, alookup]
  have hg2 : getV [(m1, 0), (m2, 0)] m2 = 0 := by
    simp [getV, alookup, hne]
  constructor
  · intro hwf
    unfold tally1
    rw [tally1_fold hne votes [(m1, 0), (m2, 0)] (List.all_eq_true.mp hwf) hk1 hk2, hg1, hg2]
    omega
  · intro hwf
    unfold tally2
    rw [tally2_fold hne votes ([(m1, 0), (m2, 0)], 0, 0) (List.all_eq_true.mp hwf) hk1 hk2,
      hg1, hg2]
    dsimp only
    omega

/-- Witness for `C3_aggregate_sum`: a one-vote first-variant log and a
two-vote second-variant log (one win, one tie) over `alpha` and `beta`. -/
theorem C3_aggregate_sum_witness :
    [exVoteLeft].all (voteWF1 "alpha" "beta") = true
    ∧ getV (tally1 "alpha" "beta" [exVoteLeft]) "alpha"
        + getV (tally1 "alpha" "beta" [exVoteLeft]) "beta" + 0 + 0 = 1
    ∧ [exVoteLeft, exVoteTie].all (voteWF2 "alpha" "beta") = true
    ∧ getV (tally2 "alpha" "beta" [exVoteLeft, exVoteTie]).1 "alpha"
        + getV (tally2 "alpha" "beta" [exVoteLeft, exVoteTie]).1 "beta"
        + (tally2 "alpha" "beta" [exVoteLeft, exVoteTie]).2.1
        + (tally2 "alpha" "beta" [exVoteLeft, exVoteTie]).2.2 = 2 :=
  ⟨by decide,
    (C3_aggregate_sum "alpha" "beta" [exVoteLeft] (by decide)).1 (by decide),
    by decide,
    (C3_aggregate_sum "alpha" "beta" [exVoteLeft, exVoteTie] (by decide)).2 (by decide)⟩

/-- Witness for `C6_parse_first_variant` at `"alpha_001.png"` (separator at
index 5): model `"alpha"`, id `"1"`. -/
theorem C6_parse_first_variant_witness :
    minSepIdx (stripExt "alpha_001.png".toList) = some 5
    ∧ V1.parseModelLabel "alpha_001.png".toList = "alpha".toList
    ∧ V1.parseIdSuffix "alpha_001.png".toList (V1.parseModelLabel "alpha_001.png".toList)
        = "1".toList :=
  ⟨by decide,
    (C6_parse_first_variant "alpha_001.png".toList 5 (by decide)).1.trans (by decide),
    (C6_parse_first_variant "alpha_001.png".toList 5 (by decide)).2.trans (by decide)⟩

/-- Witness for `C8_csv_delimiter_and_registration` on the concrete CSV
`id;instruction` / `001;Draw a cat`. -/
theorem C8_csv_delimiter_and_registration_witness :
    csvDelim "id;instruction\n001;Draw a cat".toList = ';'
    ∧ ("001".toList, "Draw a cat".toList)
        ∈ parseInstructionsCSV "id;instruction\n001;Draw a cat".toList
    ∧ ("1".toList, "Draw a cat".toList)
        ∈ parseInstructionsCSV "id;instruction\n001;Draw a cat".toList := by
  have hd := C8_csv_delimiter_and_registration.1 "id;instruction\n001;Draw a cat".toList
    "id;instruction".toList ["001;Draw a cat".toList] (by decide)
  have hr := C8_csv_delimiter_and_registration.2.1 "id;instruction\n001;Draw a cat".toList
    "001;Draw a cat".toList 1 3 (by decide) (by decide) (by decide) (by decide)
  refine ⟨hd.trans (by decide), ?_, ?_⟩
  · have hconv : (stripQuotes (jsTrim (("001;Draw a cat".toList).take 3)),
        stripQuotes (jsTrim (("001;Draw a cat".toList).drop 4)))
        = ("001".toList, "Draw a cat".toList) := by decide
    exact hconv ▸ hr.1
  · have hconv : (normalizeId (stripQuotes (jsTrim (("001;Draw a cat".toList).take 3))),
        stripQuotes (jsTrim (("001;Draw a cat".toList).drop 4)))
        = ("1".toList, "Draw a cat".toList) := by decide
    exact hconv ▸ hr.2

end ModelDuelArena
